import Mathlib

/-!
Shallow embedding of the polyline-offset core of `polyline-offset-lab`
(`src/math.rs` and the offset computation inside `animation_frame_callback`
in `src/lib.rs`).  The `f64` components are idealized as real numbers; the
`f64::EPSILON` constant of the parallel test is kept explicitly.
-/

namespace PolylineOffset

noncomputable section

/-- The point type `Point<[f64; 2]>` from `src/math.rs`: a 2-component
coordinate, components idealized as reals. -/
@[ext] structure Point where
  x : ℝ
  y : ℝ

/-- The displacement type `Vector<[f64; 2]>` from `src/math.rs`. -/
@[ext] structure Vector where
  x : ℝ
  y : ℝ

/-- The `impl Sub for Point` in `src/math.rs`: componentwise difference,
`Point - Point = Vector`. -/
def Point.sub (a b : Point) : Vector :=
  ⟨a.x - b.x, a.y - b.y⟩

instance : HSub Point Point Vector := ⟨Point.sub⟩

/-- The `impl Add<Vector> for Point` in `src/math.rs`: componentwise sum,
`Point + Vector = Point`. -/
def Point.add (a : Point) (v : Vector) : Point :=
  ⟨a.x + v.x, a.y + v.y⟩

instance : HAdd Point Vector Point := ⟨Point.add⟩

/-- The `impl Sub for Vector` in `src/math.rs`. -/
def Vector.sub (u v : Vector) : Vector :=
  ⟨u.x - v.x, u.y - v.y⟩

instance : HSub Vector Vector Vector := ⟨Vector.sub⟩

/-- The `impl Mul<T> for Vector` in `src/math.rs`: scaling each component by
the scalar on the right. -/
def Vector.smul (v : Vector) (c : ℝ) : Vector :=
  ⟨v.x * c, v.y * c⟩

instance : HMul Vector ℝ Vector := ⟨Vector.smul⟩

/-- The method `Vector::magnitude` in `src/math.rs`: square root of the sum of
the squared components. -/
def Vector.magnitude (v : Vector) : ℝ :=
  Real.sqrt (v.x * v.x + v.y * v.y)

/-- The method `Vector::normalize` in `src/math.rs`: `self * (1.0 / magnitude)`. -/
def Vector.normalize (v : Vector) : Vector :=
  v * (1 / v.magnitude)

/-- The method `Point::normal` in `src/math.rs`:
`d = b - a; Vector([-d[1], d[0]]).normalize()`. -/
def Point.normal (a b : Point) : Vector :=
  let d := b - a
  (Vector.mk (-d.y) d.x).normalize

/-- The `impl Index<usize> for Point` in `src/math.rs`: `&self.0[index]` on a
`[T; 2]` array is bounds-checked (panics past the end); the fallible access is
modeled as an `Option`. -/
def Point.index (p : Point) : Nat → Option ℝ
  | 0 => some p.x
  | 1 => some p.y
  | _ => none

/-- The `impl Index<usize> for Vector` in `src/math.rs`, modeled as `Option`
like `Point.index`. -/
def Vector.index (v : Vector) : Nat → Option ℝ
  | 0 => some v.x
  | 1 => some v.y
  | _ => none

/-- Rust's `slice::windows(2)`: all pairs of consecutive elements, in order;
empty on slices shorter than 2. -/
def windows2 {α : Type*} : List α → List (α × α)
  | a :: b :: rest => (a, b) :: windows2 (b :: rest)
  | _ => []

/-- The constant `f64::EPSILON`, the machine epsilon of `f64`. -/
def epsilon : ℝ := 1 / 2 ^ 52

/-- The body of the first closure in the offset computation of
`animation_frame_callback` (`src/lib.rs`): one source edge `(a, b)` is mapped
to `[a + offset, b + offset]` with `offset = normal(a, b) * dist`. -/
def offsetEdge (dist : ℝ) (a b : Point) : Point × Point :=
  let normal := Point.normal a b
  let offset := normal * dist
  (a + offset, b + offset)

/-- The `line_segments` list of `animation_frame_callback`: the offset edge of
every consecutive vertex pair (`vertices.windows(2).map(...)`).  The code
invokes this with `dist = 50.0`; the distance is kept as a parameter. -/
def lineSegments (vs : List Point) (dist : ℝ) : List (Point × Point) :=
  (windows2 vs).map fun ab => offsetEdge dist ab.1 ab.2

/-- The body of the `filter_map` closure of `animation_frame_callback`: the
joint of two consecutive offset edges by infinite line-line intersection,
`None` when the determinant is below `f64::EPSILON` in absolute value. -/
def joint (s0 s1 : Point × Point) : Option Point :=
  let p0 := s0.1
  let p1 := s0.2
  let q0 := s1.1
  let q1 := s1.2
  let p0p1 := p1 - p0
  let q0q1 := q1 - q0
  let q0p0 := p0 - q0
  let d := q0q1.x * p0p1.y - p0p1.x * q0q1.y
  if |d| < epsilon then none
  else
    let t := (q0p0.x * q0q1.y - q0q1.x * q0p0.y) / d
    some (p0 + p0p1 * t)

/-- The `vertices` list assembled per polyline in `animation_frame_callback`:
the joints of consecutive offset edges (`line_segments.windows(2).filter_map`),
and, when at least one offset edge exists, the first offset edge's start point
prepended (`vertices.insert(0, ...)`) and the last offset edge's end point
appended (`vertices.push(...)`). -/
def offsetPolyline (vs : List Point) (dist : ℝ) : List Point :=
  let segs := lineSegments vs dist
  let vertices := (windows2 segs).filterMap fun s => joint s.1 s.2
  match segs with
  | [] => vertices
  | s :: rest => s.1 :: (vertices ++ [(rest.getLastD s).2])

/-- The hardcoded offset distance `50.0` used by `animation_frame_callback`. -/
def offsetDistance : ℝ := 50

/-- The `offset_polylines` computation of `animation_frame_callback`: the
offset polyline of every polyline in the state, at distance 50. -/
def offsetPolylines (ps : List (List Point)) : List (List Point) :=
  ps.map fun vs => offsetPolyline vs offsetDistance

/-- Modelled from the spec: the 2D dot product, used to state perpendicularity
(the repository defines no dot product of its own). -/
def dot (u v : Vector) : ℝ :=
  u.x * v.x + u.y * v.y

/-- Modelled from the spec: rotation of a displacement by 90 degrees
counter-clockwise, written with the rotation matrix of the angle pi/2.  Used
to compare `Point::normal` against the spec's description. -/
def rotCCW90 (v : Vector) : Vector :=
  ⟨Real.cos (Real.pi / 2) * v.x - Real.sin (Real.pi / 2) * v.y,
   Real.sin (Real.pi / 2) * v.x + Real.cos (Real.pi / 2) * v.y⟩

@[simp] lemma point_sub_def (a b : Point) : a - b = Vector.mk (a.x - b.x) (a.y - b.y) := rfl

@[simp] lemma point_add_def (a : Point) (v : Vector) : a + v = Point.mk (a.x + v.x) (a.y + v.y) := rfl

@[simp] lemma vector_sub_def (u v : Vector) : u - v = Vector.mk (u.x - v.x) (u.y - v.y) := rfl

@[simp] lemma vector_smul_def (v : Vector) (c : ℝ) : v * c = Vector.mk (v.x * c) (v.y * c) := rfl

lemma vector_magnitude_def (v : Vector) : v.magnitude = Real.sqrt (v.x * v.x + v.y * v.y) := rfl

lemma sqrt_hundred : Real.sqrt 100 = 10 := by
  rw [show (100:ℝ) = 10 ^ 2 by norm_num]
  exact Real.sqrt_sq (by norm_num)

lemma windows2_length {α : Type*} (l : List α) : (windows2 l).length = l.length - 1 := by
  induction l with
  | nil => rfl
  | cons a t ih =>
    match t with
    | [] => rfl
    | b :: t' =>
      simp only [windows2, List.length_cons] at ih ⊢
      omega

lemma lineSegments_length (vs : List Point) (dist : ℝ) :
    (lineSegments vs dist).length = vs.length - 1 := by
  simp [lineSegments, windows2_length]

lemma length_filterMap_of_isSome {α β : Type*} (f : α → Option β) (l : List α)
    (h : ∀ a ∈ l, (f a).isSome) : (l.filterMap f).length = l.length := by
  induction l with
  | nil => rfl
  | cons a t ih =>
    rcases Option.isSome_iff_exists.mp (h a (by simp)) with ⟨b, hb⟩
    simp [List.filterMap_cons, hb, ih fun x hx => h x (by simp [hx])]

lemma offsetPolyline_cons (vs : List Point) (dist : ℝ) (s : Point × Point)
    (rest : List (Point × Point)) (h : lineSegments vs dist = s :: rest) :
    offsetPolyline vs dist =
      s.1 :: (((windows2 (s :: rest)).filterMap fun e => joint e.1 e.2) ++
        [(rest.getLastD s).2]) := by
  simp only [offsetPolyline, h]

lemma lineSegments_cons2 (a b : Point) (t : List Point) (dist : ℝ) :
    lineSegments (a :: b :: t) dist =
      offsetEdge dist a b :: lineSegments (b :: t) dist := rfl

lemma joint_eq_none_iff (s0 s1 : Point × Point) :
    joint s0 s1 = none ↔
      |(s1.2.x - s1.1.x) * (s0.2.y - s0.1.y) -
        (s0.2.x - s0.1.x) * (s1.2.y - s1.1.y)| < epsilon := by
  simp only [joint, point_sub_def]
  split <;> simp_all

lemma offsetPolyline_of_short (vs : List Point) (dist : ℝ) (h : vs.length ≤ 1) :
    offsetPolyline vs dist = [] := by
  match vs with
  | [] => rfl
  | [p] => rfl
  | a :: b :: t => simp at h

lemma magnitude_pos_of_ne_zero (v : Vector) (h : v ≠ ⟨0, 0⟩) : 0 < v.magnitude := by
  have hc : v.x ≠ 0 ∨ v.y ≠ 0 := by
    by_contra hc
    push_neg at hc
    exact h (by ext <;> simp [hc.1, hc.2])
  rw [vector_magnitude_def]
  refine Real.sqrt_pos.mpr ?_
  rcases hc with hx | hy
  · have := mul_self_pos.mpr hx
    nlinarith [mul_self_nonneg v.y]
  · have := mul_self_pos.mpr hy
    nlinarith [mul_self_nonneg v.x]

lemma magnitude_smul (v : Vector) (c : ℝ) : (v * c).magnitude = v.magnitude * |c| := by
  simp only [vector_smul_def, vector_magnitude_def]
  rw [show v.x * c * (v.x * c) + v.y * c * (v.y * c) =
      (v.x * v.x + v.y * v.y) * (c * c) by ring]
  rw [Real.sqrt_mul (add_nonneg (mul_self_nonneg _) (mul_self_nonneg _)) _,
    Real.sqrt_mul_self_eq_abs]

lemma magnitude_normalize_eq_one (v : Vector) (h : v ≠ ⟨0, 0⟩) :
    v.normalize.magnitude = 1 := by
  have hm := magnitude_pos_of_ne_zero v h
  simp only [Vector.normalize]
  rw [magnitude_smul, abs_of_nonneg (one_div_nonneg.mpr hm.le), one_div,
    mul_inv_cancel₀ hm.ne']

lemma vec_eq_zero_iff (v : Vector) : v = ⟨0, 0⟩ ↔ v.x = 0 ∧ v.y = 0 := by
  constructor
  · intro h
    rw [h]
    exact ⟨rfl, rfl⟩
  · intro h
    ext
    · exact h.1
    · exact h.2

lemma sub_ne_zero_of_point_ne (a b : Point) (h : a ≠ b) :
    (b - a : Vector) ≠ ⟨0, 0⟩ := by
  intro hc
  rw [vec_eq_zero_iff] at hc
  simp only [point_sub_def] at hc
  apply h
  ext
  · linarith [hc.1]
  · linarith [hc.2]

lemma normalize_smul_pos (v : Vector) (k : ℝ) (hk : 0 < k) :
    (v * k).normalize = v.normalize := by
  rcases eq_or_ne v.magnitude 0 with hm | hm
  · simp only [Vector.normalize, magnitude_smul, hm, zero_mul]
    ext <;> simp [vector_smul_def]
  · simp only [Vector.normalize, magnitude_smul, abs_of_pos hk]
    ext
    · simp only [vector_smul_def]
      field_simp
      ring
    · simp only [vector_smul_def]
      field_simp
      ring

lemma normal_of_dir_smul (a b c : Point) (k : ℝ) (hk : 0 < k)
    (hdir : (c - b : Vector) = (b - a : Vector) * k) :
    Point.normal b c = Point.normal a b := by
  simp only [Point.normal]
  rw [show (Vector.mk (-(c - b : Vector).y) ((c - b : Vector).x)) =
      (Vector.mk (-(b - a : Vector).y) ((b - a : Vector).x)) * k by
    rw [hdir]
    ext <;> simp [vector_smul_def] <;> ring]
  exact normalize_smul_pos _ k hk

lemma lineSegments_right_angle : lineSegments [⟨0,0⟩, ⟨10,0⟩, ⟨10,10⟩] 5 =
    [(⟨0,5⟩, ⟨10,5⟩), (⟨5,0⟩, ⟨5,10⟩)] := by
  simp only [lineSegments, windows2, List.map, offsetEdge, Point.normal,
    Vector.normalize]
  norm_num [vector_magnitude_def, sqrt_hundred, Point.mk.injEq, Vector.mk.injEq,
    Prod.ext_iff]

lemma joint_right_angle : joint (⟨0,5⟩, ⟨10,5⟩) (⟨5,0⟩, ⟨5,10⟩) = some ⟨5,5⟩ := by
  simp only [joint]
  norm_num [epsilon, Point.mk.injEq]

lemma offsetPolyline_right_angle :
    offsetPolyline [⟨0,0⟩, ⟨10,0⟩, ⟨10,10⟩] 5 = [⟨0,5⟩, ⟨5,5⟩, ⟨5,10⟩] := by
  rw [offsetPolyline_cons _ _ _ _ lineSegments_right_angle]
  simp only [windows2, List.filterMap, joint_right_angle, List.getLastD]
  rfl

/-- C1: the Joint Solver computes the determinant
`d = (q1.x-q0.x)*(p1.y-p0.y) - (p1.x-p0.x)*(q1.y-q0.y)`; when `|d|` is at
least machine epsilon it emits exactly the vertex `p0 + t*(p1-p0)` with
`t = ((p0.x-q0.x)*(q1.y-q0.y) - (q1.x-q0.x)*(p0.y-q0.y)) / d`, and when
`|d|` is below machine epsilon it emits no vertex for that pair. -/
theorem joint_solver_cramer (p0 p1 q0 q1 : Point) :
    (|(q1.x - q0.x) * (p1.y - p0.y) - (p1.x - p0.x) * (q1.y - q0.y)| < epsilon →
      joint (p0, p1) (q0, q1) = none) ∧
    (epsilon ≤ |(q1.x - q0.x) * (p1.y - p0.y) - (p1.x - p0.x) * (q1.y - q0.y)| →
      joint (p0, p1) (q0, q1) =
        some (p0 + (p1 - p0) *
          (((p0.x - q0.x) * (q1.y - q0.y) - (q1.x - q0.x) * (p0.y - q0.y)) /
            ((q1.x - q0.x) * (p1.y - p0.y) - (p1.x - p0.x) * (q1.y - q0.y))))) := by
  constructor <;> intro h
  · simp only [joint, point_sub_def]
    exact if_pos h
  · simp only [joint, point_sub_def]
    rw [if_neg (not_lt.mpr h)]

/-- Witness for C1 at a concrete non-parallel pair, with determinant -4. -/
theorem joint_solver_cramer_witness :
    epsilon ≤ |(4:ℝ)| ∧
    joint (⟨0,0⟩, ⟨2,0⟩) (⟨1,-1⟩, ⟨1,1⟩) = some ⟨1, 0⟩ := by
  refine ⟨by norm_num [epsilon], ?_⟩
  have h := (joint_solver_cramer ⟨0,0⟩ ⟨2,0⟩ ⟨1,-1⟩ ⟨1,1⟩).2 (by norm_num [epsilon])
  rw [h]
  norm_num [Point.mk.injEq]

/-- C2: with at least 2 source vertices and no dropped (parallel) joint, the
offset polyline is the first offset edge's start point, the joints of the
consecutive offset edge pairs in order (one per internal source vertex), then
the last offset edge's end point, and it has exactly as many vertices as the
source polyline. -/
theorem offsetPolyline_structure (vs : List Point) (dist : ℝ)
    (h2 : 2 ≤ vs.length)
    (hnp : ∀ e ∈ windows2 (lineSegments vs dist), (joint e.1 e.2).isSome) :
    (offsetPolyline vs dist).length = vs.length ∧
    ∃ s rest, lineSegments vs dist = s :: rest ∧
      offsetPolyline vs dist =
        s.1 :: (((windows2 (lineSegments vs dist)).filterMap fun e => joint e.1 e.2) ++
          [(rest.getLastD s).2]) ∧
      ((windows2 (lineSegments vs dist)).filterMap fun e => joint e.1 e.2).length =
        vs.length - 2 := by
  match vs, h2 with
  | a :: b :: t, _ =>
    have hseg := lineSegments_cons2 a b t dist
    have hjl : ((windows2 (lineSegments (a :: b :: t) dist)).filterMap
        fun e => joint e.1 e.2).length = (a :: b :: t).length - 2 := by
      rw [length_filterMap_of_isSome _ _ hnp, windows2_length, lineSegments_length]
      omega
    have hofs := offsetPolyline_cons (a :: b :: t) dist _ _ hseg
    refine ⟨?_, offsetEdge dist a b, lineSegments (b :: t) dist, hseg, ?_, hjl⟩
    · rw [hofs, ← hseg]
      simp only [List.length_cons, List.length_append, List.length_nil, hjl]
      omega
    · rw [hofs, hseg]

/-- Witness for C2 on the 3-vertex right-angle polyline [(0,0),(1,0),(1,1)]
at distance 1: both hypotheses hold and the offset polyline has 3 vertices. -/
theorem offsetPolyline_structure_witness :
    2 ≤ ([⟨0,0⟩, ⟨1,0⟩, ⟨1,1⟩] : List Point).length ∧
    (offsetPolyline [⟨0,0⟩, ⟨1,0⟩, ⟨1,1⟩] 1).length = 3 := by
  have hseg : lineSegments [⟨0,0⟩, ⟨1,0⟩, ⟨1,1⟩] 1 =
      [(⟨0,1⟩, ⟨1,1⟩), (⟨0,0⟩, ⟨0,1⟩)] := by
    simp only [lineSegments, windows2, List.map, offsetEdge, Point.normal,
      Vector.normalize]
    norm_num [vector_magnitude_def, Real.sqrt_one, Point.mk.injEq, Vector.mk.injEq,
      Prod.ext_iff]
  have hnp : ∀ e ∈ windows2 (lineSegments [⟨0,0⟩, ⟨1,0⟩, ⟨1,1⟩] 1),
      (joint e.1 e.2).isSome := by
    rw [hseg]
    intro e he
    simp only [windows2, List.mem_singleton] at he
    subst he
    simp only [joint]
    norm_num [epsilon]
  refine ⟨by norm_num, ?_⟩
  have hlen := (offsetPolyline_structure [⟨0,0⟩, ⟨1,0⟩, ⟨1,1⟩] 1 (by norm_num) hnp).1
  simpa using hlen

/-- C3 corrected: the amended concrete right-angle example, following the code.
For the source polyline [(0,0),(10,0),(10,10)] at distance 5 the pipeline
produces offset edge1 [(0,5),(10,5)], offset edge2 [(5,0),(5,10)], joint
vertex (5,5), and assembled offset polyline [(0,5),(5,5),(5,10)]. -/
theorem rightAngle_pipeline_eval :
    lineSegments [⟨0,0⟩, ⟨10,0⟩, ⟨10,10⟩] 5 = [(⟨0,5⟩, ⟨10,5⟩), (⟨5,0⟩, ⟨5,10⟩)] ∧
    joint (⟨0,5⟩, ⟨10,5⟩) (⟨5,0⟩, ⟨5,10⟩) = some ⟨5,5⟩ ∧
    offsetPolyline [⟨0,0⟩, ⟨10,0⟩, ⟨10,10⟩] 5 = [⟨0,5⟩, ⟨5,5⟩, ⟨5,10⟩] :=
  ⟨lineSegments_right_angle, joint_right_angle, offsetPolyline_right_angle⟩

/-- Counterexample to C3 as stated: at distance 5 the second offset edge is
not [(9,0),(9,10)] and the assembled offset polyline is not
[(0,5),(9,5),(9,10)]. -/
theorem rightAngle_spec_values_false :
    lineSegments [⟨0,0⟩, ⟨10,0⟩, ⟨10,10⟩] 5 ≠ [(⟨0,5⟩, ⟨10,5⟩), (⟨9,0⟩, ⟨9,10⟩)] ∧
    offsetPolyline [⟨0,0⟩, ⟨10,0⟩, ⟨10,10⟩] 5 ≠ [⟨0,5⟩, ⟨9,5⟩, ⟨9,10⟩] := by
  constructor
  · rw [lineSegments_right_angle]
    simp only [ne_eq, List.cons.injEq, Prod.mk.injEq, Point.mk.injEq]
    norm_num
  · rw [offsetPolyline_right_angle]
    simp only [ne_eq, List.cons.injEq, Point.mk.injEq]
    norm_num

/-- C4 amended: when the second of two consecutive source edges points in the
same direction as the first (its direction is a positive multiple of the
first's), the parallel branch of the joint solver is taken for their offset
edges and the end of the first offset edge coincides with the start of the
second, so dropping the joint creates no gap. -/
theorem parallel_drop_same_direction (a b c : Point) (dist k : ℝ) (hk : 0 < k)
    (hdir : (c - b : Vector) = (b - a : Vector) * k) :
    lineSegments [a, b, c] dist = [offsetEdge dist a b, offsetEdge dist b c] ∧
    joint (offsetEdge dist a b) (offsetEdge dist b c) = none ∧
    (offsetEdge dist a b).2 = (offsetEdge dist b c).1 := by
  have hnormal : Point.normal b c = Point.normal a b :=
    normal_of_dir_smul a b c k hk hdir
  refine ⟨rfl, ?_, ?_⟩
  · rw [joint_eq_none_iff]
    have hx : c.x - b.x = (b.x - a.x) * k := by
      have h1 := congrArg Vector.x hdir
      simpa [point_sub_def, vector_smul_def] using h1
    have hy : c.y - b.y = (b.y - a.y) * k := by
      have h1 := congrArg Vector.y hdir
      simpa [point_sub_def, vector_smul_def] using h1
    obtain ⟨ax, ay⟩ := a
    obtain ⟨bx, b2⟩ := b
    obtain ⟨cx, cy⟩ := c
    simp only at hx hy
    have hcx : cx = bx + (bx - ax) * k := by linarith
    have hcy : cy = b2 + (b2 - ay) * k := by linarith
    subst hcx
    subst hcy
    simp only [offsetEdge, point_add_def]
    ring_nf
    norm_num [epsilon]
  · simp only [offsetEdge]
    rw [hnormal]

/-- Witness for the amended C4 on the collinear same-direction polyline
[(0,0),(1,0),(3,0)] at distance 50 with factor 2. -/
theorem parallel_drop_same_direction_witness :
    (0 : ℝ) < 2 ∧
    joint (offsetEdge 50 ⟨0, 0⟩ ⟨1, 0⟩) (offsetEdge 50 ⟨1, 0⟩ ⟨3, 0⟩) = none ∧
    (offsetEdge 50 ⟨0, 0⟩ ⟨1, 0⟩).2 = (offsetEdge 50 ⟨1, 0⟩ ⟨3, 0⟩).1 := by
  have hdir : ((⟨3, 0⟩ : Point) - (⟨1, 0⟩ : Point)) =
      ((⟨1, 0⟩ : Point) - (⟨0, 0⟩ : Point)) * (2 : ℝ) := by
    simp only [point_sub_def, vector_smul_def]
    norm_num
  have h := parallel_drop_same_direction ⟨0, 0⟩ ⟨1, 0⟩ ⟨3, 0⟩ 50 2 (by norm_num) hdir
  exact ⟨by norm_num, h.2.1, h.2.2⟩

/-- Counterexample to C4 as stated: for the doubling-back source polyline
[(0,0),(1,0),(0,0)] at distance 50 the two offset edges trigger the parallel
branch (joint dropped), yet the end of the first offset edge (1,50) and the
start of the second (1,-50) do not coincide, leaving a gap. -/
theorem parallel_drop_gap_cex :
    lineSegments [⟨0,0⟩, ⟨1,0⟩, ⟨0,0⟩] 50 = [(⟨0,50⟩, ⟨1,50⟩), (⟨1,-50⟩, ⟨0,-50⟩)] ∧
    joint (⟨0,50⟩, ⟨1,50⟩) (⟨1,-50⟩, ⟨0,-50⟩) = none ∧
    ((⟨1,50⟩ : Point) ≠ (⟨1,-50⟩ : Point)) := by
  refine ⟨?_, ?_, ?_⟩
  · simp only [lineSegments, windows2, List.map, offsetEdge, Point.normal,
      Vector.normalize]
    norm_num [vector_magnitude_def, Real.sqrt_one, Point.mk.injEq, Vector.mk.injEq,
      Prod.ext_iff]
  · simp only [joint]
    norm_num [epsilon]
  · simp only [ne_eq, Point.mk.injEq]
    norm_num

/-- C5: the code has no degenerate-edge branch.  For the source polyline
[(0,0),(0,0)], whose single edge has two identical endpoints, the edge vector
has magnitude 0 - so `normalize` divides by zero (in `f64`: scale
`1.0/0.0 = +Inf`, components `0.0 * Inf = NaN`) - and the pipeline still
emits a 2-vertex offset polyline built from that edge instead of rejecting or
skipping it. -/
theorem degenerate_edge_flows_to_output :
    ((⟨0,0⟩ : Point) - (⟨0,0⟩ : Point)).magnitude = 0 ∧
    (offsetPolyline [⟨0,0⟩, ⟨0,0⟩] 50).length = 2 := by
  constructor
  · norm_num [vector_magnitude_def, Real.sqrt_zero]
  · simp only [offsetPolyline, lineSegments, windows2, List.map, List.filterMap]
    rfl

/-- C6: a source polyline with 0 or 1 vertices yields the empty offset
polyline, with no error signalled (the function is total). -/
theorem empty_or_singleton_empty_output (vs : List Point) (dist : ℝ)
    (h : vs.length ≤ 1) : offsetPolyline vs dist = [] :=
  offsetPolyline_of_short vs dist h

/-- Witness for C6 on a singleton polyline. -/
theorem empty_or_singleton_empty_output_witness :
    ([(⟨5, 7⟩ : Point)].length ≤ 1) ∧ offsetPolyline [⟨5, 7⟩] 50 = [] :=
  ⟨by norm_num, empty_or_singleton_empty_output [⟨5, 7⟩] 50 (by norm_num)⟩

/-- C7: the normal of an edge from a to b, for distinct a and b, is the
normalization of the direction b - a rotated by 90 degrees counter-clockwise
(rotation matrix at angle pi/2). -/
theorem normal_is_ccw_rotation (a b : Point) (h : a ≠ b) :
    Point.normal a b = (rotCCW90 (b - a)).normalize := by
  simp only [Point.normal, rotCCW90, Real.cos_pi_div_two, Real.sin_pi_div_two]
  norm_num

/-- Witness for C7 at a = (0,0), b = (1,0). -/
theorem normal_is_ccw_rotation_witness :
    ((⟨0, 0⟩ : Point) ≠ ⟨1, 0⟩) ∧
    Point.normal ⟨0, 0⟩ ⟨1, 0⟩ =
      (rotCCW90 ((⟨1, 0⟩ : Point) - (⟨0, 0⟩ : Point))).normalize := by
  have hab : (⟨0, 0⟩ : Point) ≠ ⟨1, 0⟩ := by
    simp only [ne_eq, Point.mk.injEq]
    norm_num
  exact ⟨hab, normal_is_ccw_rotation ⟨0, 0⟩ ⟨1, 0⟩ hab⟩

/-- C8: normalization of a non-zero vector has magnitude exactly 1 (so within
any floating tolerance of 1), and the normal of an edge between distinct
points is unit length and exactly perpendicular to the edge direction. -/
theorem normalize_unit_normal_perp :
    (∀ v : Vector, v ≠ ⟨0, 0⟩ → v.normalize.magnitude = 1) ∧
    (∀ a b : Point, a ≠ b →
      (Point.normal a b).magnitude = 1 ∧ dot (Point.normal a b) (b - a) = 0) := by
  refine ⟨magnitude_normalize_eq_one, fun a b h => ⟨?_, ?_⟩⟩
  · have hd := sub_ne_zero_of_point_ne a b h
    refine magnitude_normalize_eq_one _ ?_
    intro hc
    rw [vec_eq_zero_iff] at hc
    obtain ⟨h1, h2⟩ := hc
    rw [neg_eq_zero] at h1
    exact hd ((vec_eq_zero_iff _).mpr ⟨h2, h1⟩)
  · simp only [Point.normal, Vector.normalize, dot, vector_smul_def]
    ring

/-- Witness for C8 at v = (3,4) and the edge (0,0) to (3,4). -/
theorem normalize_unit_normal_perp_witness :
    ((⟨3, 4⟩ : Vector) ≠ ⟨0, 0⟩ ∧ (Vector.normalize ⟨3, 4⟩).magnitude = 1) ∧
    ((⟨0, 0⟩ : Point) ≠ ⟨3, 4⟩ ∧
      dot (Point.normal ⟨0, 0⟩ ⟨3, 4⟩) ((⟨3, 4⟩ : Point) - (⟨0, 0⟩ : Point)) = 0) := by
  have hv : (⟨3, 4⟩ : Vector) ≠ ⟨0, 0⟩ := by
    simp only [ne_eq, Vector.mk.injEq]
    norm_num
  have hp : (⟨0, 0⟩ : Point) ≠ ⟨3, 4⟩ := by
    simp only [ne_eq, Point.mk.injEq]
    norm_num
  refine ⟨⟨hv, normalize_unit_normal_perp.1 ⟨3, 4⟩ hv⟩,
    hp, (normalize_unit_normal_perp.2 ⟨0, 0⟩ ⟨3, 4⟩ hp).2⟩

/-- C9: component indexing of Point and Vector is total via Option; every
index below the fixed size 2 succeeds and returns that component, and every
index at or past 2 hits the error branch (none) rather than reading memory. -/
theorem component_indexing_bounds :
    (∀ (p : Point) (i : Nat), i < 2 → (Point.index p i).isSome) ∧
    (∀ p : Point, Point.index p 0 = some p.x ∧ Point.index p 1 = some p.y) ∧
    (∀ (p : Point) (i : Nat), 2 ≤ i → Point.index p i = none) ∧
    (∀ (v : Vector) (i : Nat), i < 2 → (Vector.index v i).isSome) ∧
    (∀ v : Vector, Vector.index v 0 = some v.x ∧ Vector.index v 1 = some v.y) ∧
    (∀ (v : Vector) (i : Nat), 2 ≤ i → Vector.index v i = none) := by
  refine ⟨?_, fun p => ⟨rfl, rfl⟩, ?_, ?_, fun v => ⟨rfl, rfl⟩, ?_⟩ <;>
    intro w i hi <;> rcases i with _ | _ | n <;>
    first
      | rfl
      | omega

/-- Witness for C9 at concrete components and indices. -/
theorem component_indexing_bounds_witness :
    (1 < 2 ∧ (Point.index ⟨3, 7⟩ 1).isSome) ∧ (2 ≤ 2 ∧ Vector.index ⟨1, 2⟩ 2 = none) :=
  ⟨⟨by norm_num, component_indexing_bounds.1 ⟨3, 7⟩ 1 (by norm_num)⟩,
   ⟨by norm_num, component_indexing_bounds.2.2.2.2.2 ⟨1, 2⟩ 2 (by norm_num)⟩⟩

/-- C10: the assembled offset polyline is never exactly one vertex long; it is
empty when the source has fewer than 2 vertices and has at least 2 vertices
(the prepended first start and appended last end) otherwise. -/
theorem offsetPolyline_never_singleton (vs : List Point) (dist : ℝ) :
    (offsetPolyline vs dist).length ≠ 1 ∧
    (vs.length ≤ 1 → offsetPolyline vs dist = []) ∧
    (2 ≤ vs.length → 2 ≤ (offsetPolyline vs dist).length) := by
  have hlong : ∀ (a b : Point) (t : List Point),
      2 ≤ (offsetPolyline (a :: b :: t) dist).length := by
    intro a b t
    rw [offsetPolyline_cons (a :: b :: t) dist (offsetEdge dist a b)
      (lineSegments (b :: t) dist) (lineSegments_cons2 a b t dist)]
    simp
  refine ⟨?_, fun h => offsetPolyline_of_short vs dist h, ?_⟩
  · match vs with
    | [] => simp [offsetPolyline, lineSegments, windows2]
    | [p] => simp [offsetPolyline, lineSegments, windows2]
    | a :: b :: t =>
      have := hlong a b t
      omega
  · intro h
    match vs, h with
    | a :: b :: t, _ => exact hlong a b t

/-- Witness for C10 on a 2-vertex polyline. -/
theorem offsetPolyline_never_singleton_witness :
    2 ≤ ([⟨0, 0⟩, ⟨2, 0⟩] : List Point).length ∧
    2 ≤ (offsetPolyline [⟨0, 0⟩, ⟨2, 0⟩] 50).length :=
  ⟨by norm_num, (offsetPolyline_never_singleton [⟨0, 0⟩, ⟨2, 0⟩] 50).2.2 (by norm_num)⟩

end

end PolylineOffset
